import Mathlib

/-!
Verification of the sshmanager credential store, session relay and transfer
pump against their natural-language specification.

The data model and operations are shallowly embedded from the Rust source
(`src/config.rs`, `src/main.rs`, `src/app.rs`).  External collaborator crates
(serde_json, aes_gcm, pbkdf2, base64) are modelled from the spec's contracts
for them, as documented on each such definition.  Byte strings are `List Nat`,
fallible operations return `Option` or `Except`.
-/

/-! ## Data model (src/config.rs) -/

/-- Embeds `AuthType` from src/config.rs: closed variant, `Key` carries a path. -/
inductive AuthType where
  | Password (secret : String)
  | Key (path : String)
  | Agent
  deriving DecidableEq

/-- Default for the `group` field (`default_group` in src/config.rs). -/
def default_group : String := "General"

/-- Embeds `Server` from src/config.rs.  `port` is a `u16` in the source, embedded as
a `Nat`; where the 16-bit bound matters it appears as an explicit `< 65536`
side condition, mirroring serde's range check on `u16`. -/
structure Server where
  name : String
  user : String
  host : String
  port : Nat
  auth_type : AuthType
  group : String
  deriving DecidableEq

/-- Embeds `LegacyServer` from src/config.rs: the pre-authentication-field shape. -/
structure LegacyServer where
  name : String
  user : String
  host : String
  port : Nat
  deriving DecidableEq

/-- Embeds `EncryptedConfig` from src/config.rs.  The three fields are base64 text on
disk; the base64 layer (external `base64` crate) is modelled as a transparent
bijection between byte lists and the stored text, so the fields are kept here
as the underlying byte lists. -/
structure EncryptedConfig where
  salt : List Nat
  nonce : List Nat
  ciphertext : List Nat
  deriving DecidableEq

/-- Embeds `Config` from src/config.rs: the in-memory profile set plus the optionally
held master passphrase. -/
structure Config where
  servers : List Server
  master_password : Option String
  deriving DecidableEq

/-- Embeds `Config::new` from src/config.rs. -/
def Config.new : Config := ⟨[], none⟩

/-! ## JSON values and the serde parsers

The on-disk file is UTF-8 JSON text.  We model the file content at the level
of JSON values; `serde_json` parsing of the three record shapes is embedded as
parsers over these values.  serde's behaviour for structs is mirrored: unknown
fields are ignored, missing or ill-typed fields fail the parse, `group` takes
its serde default `"General"` when absent, enums use the external tag form. -/

inductive Json where
  | null
  | bool (b : Bool)
  | num (n : Int)
  | str (s : String)
  | arr (xs : List Json)
  | obj (fields : List (String × Json))

/-- Extract a JSON string (serde: a `String` field must be a JSON string). -/
def getStr : Json → Option String
  | .str s => some s
  | _ => none

/-- Extract a `u16` (serde: an integral JSON number in `[0, 65536)`). -/
def getU16 : Json → Option Nat
  | .num n => if 0 ≤ n ∧ n < 65536 then some n.toNat else none
  | _ => none

/-- serde's externally tagged representation of `AuthType`: the unit variant
is the bare string `"Agent"`, the newtype variants are one-key objects. -/
def parseAuthType : Json → Option AuthType
  | .str s => if s = "Agent" then some .Agent else none
  | .obj [(k, v)] =>
      if k = "Password" then (getStr v).map .Password
      else if k = "Key" then (getStr v).map .Key
      else none
  | _ => none

/-- The `group` field with its serde default: absent means `"General"`,
present but non-string fails. -/
def parseGroup : Option Json → Option String
  | none => some default_group
  | some v => getStr v

/-- serde deserialization of one `Server` record (src/config.rs derive): all
of `name`, `user`, `host`, `port`, `auth_type` must be present and well
typed, `group` defaults; any failure fails the record. -/
def parseServer : Json → Option Server
  | .obj fields =>
      match (fields.lookup "name").bind getStr,
            (fields.lookup "user").bind getStr,
            (fields.lookup "host").bind getStr,
            (fields.lookup "port").bind getU16,
            (fields.lookup "auth_type").bind parseAuthType,
            parseGroup (fields.lookup "group") with
      | some name, some user, some host, some port, some auth, some group =>
          some ⟨name, user, host, port, auth, group⟩
      | _, _, _, _, _, _ => none
  | _ => none

/-- serde deserialization of one `LegacyServer` record (src/config.rs). -/
def parseLegacyServer : Json → Option LegacyServer
  | .obj fields =>
      match (fields.lookup "name").bind getStr,
            (fields.lookup "user").bind getStr,
            (fields.lookup "host").bind getStr,
            (fields.lookup "port").bind getU16 with
      | some name, some user, some host, some port =>
          some ⟨name, user, host, port⟩
      | _, _, _, _ => none
  | _ => none

/-- Models `serde_json::from_str::<Vec<Server>>` on the file content. -/
def parseCurrentList : Json → Option (List Server)
  | .arr xs => xs.mapM parseServer
  | _ => none

/-- Models `serde_json::from_str::<Vec<LegacyServer>>` on the file content. -/
def parseLegacyList : Json → Option (List LegacyServer)
  | .arr xs => xs.mapM parseLegacyServer
  | _ => none

/-! ## Text encoding of byte fields

Modelled from the spec: the `base64` crate's STANDARD engine encodes the
salt/nonce/ciphertext byte fields as text, and decoding inverts encoding.  We
use the simplest invertible textual encoding (a unary digit run per byte,
terminated by a marker character); the claims depend only on the encode/decode
round trip, never on the concrete alphabet. -/

def byteChunk (n : Nat) : List Char := List.replicate n 'a' ++ ['b']

def bytesToStr (l : List Nat) : String := ⟨(l.map byteChunk).flatten⟩

def decChars : List Char → Nat → List Nat
  | [], _ => []
  | c :: rest, acc => if c = 'b' then acc :: decChars rest 0 else decChars rest (acc + 1)

def strToBytes (s : String) : List Nat := decChars s.data 0

/-- serde deserialization of `EncryptedConfig` plus base64 decoding of its
three text fields (src/config.rs lines 100-110). -/
def parseEncrypted : Json → Option EncryptedConfig
  | .obj fields => do
      let s ← (fields.lookup "salt").bind getStr
      let n ← (fields.lookup "nonce").bind getStr
      let c ← (fields.lookup "ciphertext").bind getStr
      some ⟨strToBytes s, strToBytes n, strToBytes c⟩
  | _ => none

/-- serde serialization of `EncryptedConfig` with base64-encoded fields, as
written by `Config::save` (src/config.rs lines 159-165). -/
def encryptedToJson (e : EncryptedConfig) : Json :=
  .obj [("salt", .str (bytesToStr e.salt)),
        ("nonce", .str (bytesToStr e.nonce)),
        ("ciphertext", .str (bytesToStr e.ciphertext))]

theorem decChars_byteChunk (n : Nat) (r : List Char) :
    ∀ acc, decChars (List.replicate n 'a' ++ 'b' :: r) acc = (acc + n) :: decChars r 0 := by
  induction n with
  | zero => intro acc; simp [decChars]
  | succ m ih =>
      intro acc
      have hne : ('a' : Char) ≠ 'b' := by decide
      simp only [List.replicate_succ, List.cons_append, decChars, if_neg hne, List.append_eq]
      rw [ih (acc + 1)]
      have h : acc + 1 + m = acc + (m + 1) := by omega
      rw [h]

theorem strToBytes_bytesToStr (l : List Nat) : strToBytes (bytesToStr l) = l := by
  show decChars ((l.map byteChunk).flatten) 0 = l
  induction l with
  | nil => simp [decChars]
  | cons x xs ih =>
      simp only [List.map_cons, List.flatten_cons, byteChunk, List.append_assoc,
        List.singleton_append]
      rw [decChars_byteChunk x _ 0, ih]
      simp

/-! ## Key derivation and authenticated encryption

Modelled from the spec (§4.1, §4.2): the external `pbkdf2` and `aes_gcm`
crates are embedded as an ideal key-derivation function and an ideal
authenticated cipher.  `derive_key` is deterministic and collision-free in
(passphrase, salt); the ciphertext is the payload with an unforgeable
authentication tag appended ("ciphertext includes the authentication tag
appended by the AEAD scheme"), the tag binding key, nonce and payload.
Confidentiality is outside the reach of the logic and not needed by any
claim; integrity and the decrypt/AuthError contract are captured exactly. -/

/-- The derived symmetric key.  Ideal KDF: the key is determined by, and
determines, the (passphrase, salt) pair (`derive_key` in src/config.rs). -/
structure DerivedKey where
  password : String
  salt : List Nat
  deriving DecidableEq

/-- Embeds `derive_key` from src/config.rs, idealized as above. -/
def derive_key (password : String) (salt : List Nat) : DerivedKey :=
  ⟨password, salt⟩

/-- The byte rendering of a passphrase (`password.as_bytes()`). -/
def strBytes (s : String) : List Nat := s.data.map Char.toNat

/-- A length-prefixed block, the building brick of the ideal tag. -/
def encodeBlock (l : List Nat) : List Nat := l.length :: l

/-- The key/nonce part of the ideal authentication tag. -/
def tagMid (k : DerivedKey) (nonce : List Nat) : List Nat :=
  encodeBlock (strBytes k.password) ++ encodeBlock k.salt ++ encodeBlock nonce

/-- Ideal AEAD encryption: payload, tag over (key, nonce, payload), and the
payload length marker.  Corresponds to `cipher.encrypt(nonce, json.as_bytes())`
in `Config::save`. -/
def aeadEncrypt (k : DerivedKey) (nonce p : List Nat) : List Nat :=
  p ++ tagMid k nonce ++ p ++ [p.length]

/-- Length of everything in a ciphertext except the two payload copies. -/
def aeadBase (k : DerivedKey) (nonce : List Nat) : Nat :=
  (tagMid k nonce).length + 1

/-- Ideal AEAD decryption: succeeds exactly on well-formed ciphertexts made
with the same key and nonce, otherwise reports the one opaque failure
(`cipher.decrypt(...)` in `Config::load`, surfaced as "Invalid password or
corrupted data"). -/
def aeadDecrypt (k : DerivedKey) (nonce ct : List Nat) : Option (List Nat) :=
  if aeadBase k nonce ≤ ct.length ∧ (ct.length - aeadBase k nonce) % 2 = 0 then
    if ct = aeadEncrypt k nonce (ct.take ((ct.length - aeadBase k nonce) / 2)) then
      some (ct.take ((ct.length - aeadBase k nonce) / 2))
    else none
  else none

theorem length_aeadEncrypt (k : DerivedKey) (nonce p : List Nat) :
    (aeadEncrypt k nonce p).length = 2 * p.length + aeadBase k nonce := by
  simp [aeadEncrypt, aeadBase]
  omega

theorem aeadEncrypt_assoc (k : DerivedKey) (nonce p : List Nat) :
    aeadEncrypt k nonce p = p ++ (tagMid k nonce ++ p ++ [p.length]) := by
  simp [aeadEncrypt, List.append_assoc]

theorem aeadDecrypt_eq_some {k : DerivedKey} {nonce ct p : List Nat} :
    aeadDecrypt k nonce ct = some p ↔ ct = aeadEncrypt k nonce p := by
  constructor
  · intro h
    unfold aeadDecrypt at h
    by_cases hc : aeadBase k nonce ≤ ct.length ∧ (ct.length - aeadBase k nonce) % 2 = 0
    · rw [if_pos hc] at h
      by_cases he : ct = aeadEncrypt k nonce (ct.take ((ct.length - aeadBase k nonce) / 2))
      · rw [if_pos he] at h
        have hp : ct.take ((ct.length - aeadBase k nonce) / 2) = p := by
          simpa using h
        rw [← hp]
        exact he
      · rw [if_neg he] at h
        exact absurd h (by simp)
    · rw [if_neg hc] at h
      exact absurd h (by simp)
  · intro h
    have hlen : ct.length = 2 * p.length + aeadBase k nonce := by
      rw [h, length_aeadEncrypt]
    have hcond : aeadBase k nonce ≤ ct.length ∧ (ct.length - aeadBase k nonce) % 2 = 0 := by
      omega
    have hdiv : (ct.length - aeadBase k nonce) / 2 = p.length := by omega
    have htake : ct.take p.length = p := by
      rw [h, aeadEncrypt_assoc]
      exact List.take_left p (tagMid k nonce ++ p ++ [p.length])
    unfold aeadDecrypt
    rw [if_pos hcond, hdiv, htake, if_pos h]

theorem concat_inj {a b : List Nat} {x y : Nat} (h : a ++ [x] = b ++ [y]) :
    a = b ∧ x = y := by
  have hl : a.length = b.length := by
    have := congrArg List.length h
    simpa using this
  have := List.append_inj h hl
  simpa using this

theorem encodeBlock_append_inj {a b r r' : List Nat}
    (h : encodeBlock a ++ r = encodeBlock b ++ r') : a = b ∧ r = r' := by
  unfold encodeBlock at h
  simp only [List.cons_append, List.cons.injEq] at h
  obtain ⟨hlen, happ⟩ := h
  exact List.append_inj happ hlen

theorem strBytes_inj {s t : String} (h : strBytes s = strBytes t) : s = t := by
  unfold strBytes at h
  have hdata : s.data = t.data := by
    have hinj : Function.Injective Char.toNat := by
      intro a b hab
      have := congrArg Char.ofNat hab
      rwa [Char.ofNat_toNat, Char.ofNat_toNat] at this
    exact List.map_injective_iff.mpr hinj h
  cases s; cases t; exact congrArg String.mk hdata

theorem tagMid_inj {k k' : DerivedKey} {n n' : List Nat}
    (h : tagMid k n = tagMid k' n') : k = k' ∧ n = n' := by
  unfold tagMid at h
  rw [List.append_assoc, List.append_assoc] at h
  obtain ⟨hpw, h1⟩ := encodeBlock_append_inj h
  obtain ⟨hsalt, h2⟩ := encodeBlock_append_inj h1
  have hn : n = n' := by
    have h3 : encodeBlock n ++ [] = encodeBlock n' ++ [] := by simpa using h2
    exact (encodeBlock_append_inj h3).1
  refine ⟨?_, hn⟩
  cases k; cases k'
  simp only [DerivedKey.mk.injEq]
  exact ⟨strBytes_inj hpw, hsalt⟩

theorem aeadEncrypt_inj {k k' : DerivedKey} {n n' p q : List Nat}
    (h : aeadEncrypt k n p = aeadEncrypt k' n' q) : k = k' ∧ n = n' ∧ p = q := by
  unfold aeadEncrypt at h
  obtain ⟨hcore, hlen⟩ := concat_inj h
  have hpq : p.length = q.length := hlen
  rw [List.append_assoc, List.append_assoc] at hcore
  obtain ⟨hp, hrest⟩ := List.append_inj hcore hpq
  have htag : (tagMid k n).length = (tagMid k' n').length := by
    have := congrArg List.length hrest
    simp only [List.length_append] at this
    omega
  obtain ⟨htm, _⟩ := List.append_inj hrest htag
  obtain ⟨hk, hn⟩ := tagMid_inj htm
  exact ⟨hk, hn, hp⟩

theorem set_elem_of_set_eq {l : List Nat} {i b : Nat} (h : i < l.length)
    (hset : l.set i b = l) : b = l[i] := by
  have := congrArg (fun t => t[i]?) hset
  simp [List.getElem?_set_self, h] at this
  omega

theorem aeadDecrypt_set_eq_none (k : DerivedKey) (nonce p : List Nat) (i b : Nat)
    (h : i < (aeadEncrypt k nonce p).length)
    (hb : b ≠ (aeadEncrypt k nonce p).get ⟨i, h⟩) :
    aeadDecrypt k nonce ((aeadEncrypt k nonce p).set i b) = none := by
  by_contra hsome
  obtain ⟨q, hq⟩ := Option.ne_none_iff_exists'.mp hsome
  rw [aeadDecrypt_eq_some] at hq
  have hfin : (aeadEncrypt k nonce p)[i]? = some b → False := by
    intro hx
    have h2 : (aeadEncrypt k nonce p)[i]? =
        some ((aeadEncrypt k nonce p).get ⟨i, h⟩) := by
      simp [List.getElem?_eq_getElem h, List.get_eq_getElem]
    rw [hx] at h2
    exact hb (Option.some.inj h2)
  have hL : aeadEncrypt k nonce p =
      p ++ (tagMid k nonce ++ (p ++ [p.length])) := by
    simp [aeadEncrypt, List.append_assoc]
  have hQ : aeadEncrypt k nonce q =
      q ++ (tagMid k nonce ++ (q ++ [q.length])) := by
    simp [aeadEncrypt, List.append_assoc]
  have hmq : q.length = p.length := by
    have := congrArg List.length hq
    rw [List.length_set, length_aeadEncrypt, length_aeadEncrypt] at this
    omega
  have hi4 : i < 2 * p.length + (tagMid k nonce).length + 1 := by
    rw [length_aeadEncrypt] at h
    unfold aeadBase at h
    omega
  rw [hL, hQ] at hq
  by_cases h1 : i < p.length
  · -- the flipped byte sits in the leading payload copy
    rw [List.set_append_left _ _ h1] at hq
    obtain ⟨ha, hrest⟩ := List.append_inj hq (by simp [hmq])
    have hcancel := List.append_cancel_left hrest
    have hpq : p = q := (concat_inj hcancel).1
    rw [← hpq] at ha
    have hbval : b = p[i] := set_elem_of_set_eq h1 ha
    apply hfin
    rw [hL]
    rw [List.getElem?_append_left h1]
    rw [List.getElem?_eq_getElem h1, hbval]
  · push_neg at h1
    have hsp : p.length ≤ i := h1
    rw [List.set_append_right _ _ hsp] at hq
    obtain ⟨hpq, hrest⟩ := List.append_inj hq (by simp [hmq])
    rw [← hpq] at hrest
    by_cases h2 : i - p.length < (tagMid k nonce).length
    · -- the flipped byte sits in the tag's key/nonce part
      rw [List.set_append_left _ _ h2] at hrest
      obtain ⟨hset, _⟩ := List.append_inj hrest (by simp)
      have hbval : b = (tagMid k nonce)[i - p.length] := set_elem_of_set_eq h2 hset
      apply hfin
      rw [hL]
      rw [List.getElem?_append_right hsp]
      rw [List.getElem?_append_left h2]
      rw [List.getElem?_eq_getElem h2, hbval]
    · push_neg at h2
      rw [List.set_append_right _ _ h2] at hrest
      have hcancel := List.append_cancel_left hrest
      by_cases h3 : i - p.length - (tagMid k nonce).length < p.length
      · -- the flipped byte sits in the payload copy inside the tag
        rw [List.set_append_left _ _ h3] at hcancel
        obtain ⟨hset, _⟩ := concat_inj hcancel
        have hbval : b = p[i - p.length - (tagMid k nonce).length] :=
          set_elem_of_set_eq h3 hset
        apply hfin
        rw [hL]
        rw [List.getElem?_append_right hsp]
        rw [List.getElem?_append_right h2]
        rw [List.getElem?_append_left h3]
        rw [List.getElem?_eq_getElem h3, hbval]
      · -- the flipped byte is the trailing length marker
        push_neg at h3
        have hidx : i - p.length - (tagMid k nonce).length = p.length := by omega
        rw [List.set_append_right _ _ h3] at hcancel
        have hsingle : [p.length].set (i - p.length - (tagMid k nonce).length - p.length) b
            = [b] := by
          have : i - p.length - (tagMid k nonce).length - p.length = 0 := by omega
          rw [this]
          rfl
        rw [hsingle] at hcancel
        obtain ⟨_, hbval⟩ := List.append_inj hcancel (by simp)
        have hb2 : b = p.length := by simpa using hbval
        apply hfin
        rw [hL]
        rw [List.getElem?_append_right hsp]
        rw [List.getElem?_append_right h2]
        rw [List.getElem?_append_right h3]
        rw [hidx]
        simp [hb2]

/-! ## Plaintext serialization of the server list

`Config::save` serializes the server list with `serde_json::to_string` and
encrypts the UTF-8 bytes; `Config::load` parses the decrypted bytes back with
`serde_json::from_str::<Vec<Server>>`.  Modelled from the spec: this
serialize/deserialize pair is embedded as an injective byte encoding of the
server list together with its exact parser (the decrypted payload is always
Current shape, §4.3); the claims depend only on the round trip and on parse
failure for non-images, which the pair captures. -/

def encStr (s : String) : List Nat := encodeBlock (strBytes s)

def encAuth : AuthType → List Nat
  | .Password s => 0 :: encStr s
  | .Key s => 1 :: encStr s
  | .Agent => [2]

def encServer (s : Server) : List Nat :=
  encStr s.name ++ encStr s.user ++ encStr s.host ++ [s.port] ++
    encAuth s.auth_type ++ encStr s.group

def serversToBytes (l : List Server) : List Nat :=
  l.length :: (l.map encServer).flatten

def decStr : List Nat → Option (String × List Nat)
  | [] => none
  | n :: rest =>
      if n ≤ rest.length then
        some (⟨(rest.take n).map Char.ofNat⟩, rest.drop n)
      else none

def decPort : List Nat → Option (Nat × List Nat)
  | [] => none
  | n :: rest => if n < 65536 then some (n, rest) else none

def decAuth : List Nat → Option (AuthType × List Nat)
  | 0 :: rest => (decStr rest).map (fun r => (.Password r.1, r.2))
  | 1 :: rest => (decStr rest).map (fun r => (.Key r.1, r.2))
  | 2 :: rest => some (.Agent, rest)
  | _ => none

def decServer (b : List Nat) : Option (Server × List Nat) := do
  let (name, b) ← decStr b
  let (user, b) ← decStr b
  let (host, b) ← decStr b
  let (port, b) ← decPort b
  let (auth, b) ← decAuth b
  let (group, b) ← decStr b
  some (⟨name, user, host, port, auth, group⟩, b)

def decServerList : Nat → List Nat → Option (List Server × List Nat)
  | 0, b => some ([], b)
  | n + 1, b => do
      let (s, b) ← decServer b
      let (rest, b) ← decServerList n b
      some (s :: rest, b)

/-- Models `serde_json::from_str::<Vec<Server>>` applied to the decrypted plaintext
bytes (src/config.rs line 119): the exact parser of `serversToBytes`. -/
def bytesToServers : List Nat → Option (List Server)
  | [] => none
  | n :: rest =>
      match decServerList n rest with
      | some (l, []) => some l
      | _ => none

theorem decStr_encStr (s : String) (r : List Nat) :
    decStr (encStr s ++ r) = some (s, r) := by
  have he : encStr s ++ r = (strBytes s).length :: (strBytes s ++ r) := by
    simp [encStr, encodeBlock]
  rw [he]
  simp only [decStr]
  rw [if_pos (by simp)]
  have htake : (strBytes s ++ r).take (strBytes s).length = strBytes s :=
    List.take_left _ _
  have hdrop : (strBytes s ++ r).drop (strBytes s).length = r :=
    List.drop_left _ _
  rw [htake, hdrop]
  have hmap : (strBytes s).map Char.ofNat = s.data := by
    unfold strBytes
    rw [List.map_map]
    have hcomp : Char.ofNat ∘ Char.toNat = id := by
      funext c
      exact Char.ofNat_toNat c
    rw [hcomp, List.map_id]
  rw [hmap]

theorem decAuth_encAuth (a : AuthType) (r : List Nat) :
    decAuth (encAuth a ++ r) = some (a, r) := by
  cases a <;> simp [encAuth, decAuth, List.cons_append, decStr_encStr]

theorem decServer_encServer (s : Server) (r : List Nat) (hp : s.port < 65536) :
    decServer (encServer s ++ r) = some (s, r) := by
  unfold decServer encServer
  simp only [List.append_assoc, List.cons_append, List.nil_append]
  rw [decStr_encStr]
  simp only [Option.bind_eq_bind, Option.some_bind]
  rw [decStr_encStr]
  simp only [Option.some_bind]
  rw [decStr_encStr]
  simp only [Option.some_bind]
  simp only [decPort]
  rw [if_pos hp]
  simp only [Option.some_bind]
  rw [decAuth_encAuth]
  simp only [Option.some_bind]
  rw [decStr_encStr]
  rfl

theorem decServerList_enc (l : List Server) (r : List Nat)
    (hp : ∀ s ∈ l, s.port < 65536) :
    decServerList l.length ((l.map encServer).flatten ++ r) = some (l, r) := by
  induction l with
  | nil => simp [decServerList]
  | cons s rest ih =>
      simp only [List.map_cons, List.flatten_cons, List.length_cons, List.append_assoc]
      unfold decServerList
      rw [decServer_encServer s _ (hp s (by simp))]
      simp only [Option.bind_eq_bind, Option.some_bind]
      rw [ih (fun x hx => hp x (by simp [hx]))]
      rfl

theorem bytesToServers_serversToBytes (l : List Server)
    (hp : ∀ s ∈ l, s.port < 65536) :
    bytesToServers (serversToBytes l) = some l := by
  have he : serversToBytes l = l.length :: (l.map encServer).flatten := rfl
  rw [he]
  simp only [bytesToServers]
  have hd := decServerList_enc l [] hp
  rw [List.append_nil] at hd
  rw [hd]

/-! ## CredentialStore: load, save, remove (src/config.rs)

`Config::load` reads the file at the fixed config path and prompts for a
passphrase when it finds the encrypted shape; the embedding passes the file
content (`none` when the file does not exist) and the passphrase the user
would enter as explicit arguments.  `Config::save` prompts twice when no
passphrase is held and draws a fresh salt and nonce from the OS RNG; the
embedding passes the two prompt answers and the random salt/nonce as
arguments, and returns the written file content alongside the result. -/

/-- The errors `Config::load` can surface: the cascade fell through all three
shapes (`formatError`, "Failed to parse config file at ..."), decryption
failure (`authError`, "Invalid password or corrupted data"), or a parse
failure of the decrypted plaintext (`parseError`). -/
inductive LoadError where
  | formatError
  | authError
  | parseError
  deriving DecidableEq

/-- The legacy-record upgrade performed inline in `Config::load`
(src/config.rs lines 89-96). -/
def migrateLegacy (ls : LegacyServer) : Server :=
  ⟨ls.name, ls.user, ls.host, ls.port, .Agent, "General"⟩

/-- Embeds `Config::load` (src/config.rs lines 71-125): missing file gives the empty
store; otherwise the cascade tries Current, then Legacy, then Encrypted, and
the encrypted branch derives a key from the stored salt and the entered
passphrase and decrypts. -/
def Config.load (file : Option Json) (password : String) : Except LoadError Config :=
  match file with
  | none => .ok Config.new
  | some content =>
      match parseCurrentList content with
      | some servers => .ok ⟨servers, none⟩
      | none =>
          match parseLegacyList content with
          | some legacy => .ok ⟨legacy.map migrateLegacy, none⟩
          | none =>
              match parseEncrypted content with
              | none => .error .formatError
              | some enc =>
                  match aeadDecrypt (derive_key password enc.salt) enc.nonce enc.ciphertext with
                  | none => .error .authError
                  | some plaintext =>
                      match bytesToServers plaintext with
                      | none => .error .parseError
                      | some servers => .ok ⟨servers, some password⟩

/-- Embeds `Config::load` viewed with the on-disk state made explicit: the load only
reads the file, so the disk component is returned unchanged. -/
def Config.loadFS (disk : Option Json) (password : String) :
    Except LoadError Config × Option Json :=
  (Config.load disk password, disk)

/-- The encrypted file content written by `Config::save` for a given server
list, passphrase, salt and nonce (src/config.rs lines 144-166). -/
def encryptFile (servers : List Server) (password : String)
    (salt nonce : List Nat) : Json :=
  encryptedToJson ⟨salt, nonce,
    aeadEncrypt (derive_key password salt) nonce (serversToBytes servers)⟩

/-- The error `Config::save` can raise before touching the disk
("Passwords do not match", src/config.rs line 139). -/
inductive SaveError where
  | passphraseMismatch
  deriving DecidableEq

/-- Result of a save: the returned value, the config (whose
`master_password` may have just been set), and the on-disk file state. -/
structure SaveOutcome where
  result : Except SaveError Unit
  config : Config
  disk : Option Json

/-- Embeds `Config::save` (src/config.rs lines 127-168): when no passphrase is held
the user is prompted twice (`entry`, `confirm`); a mismatch aborts before the
passphrase is stored and before anything is written.  Otherwise the whole
server list is re-encrypted under a fresh `salt` and `nonce` and the file is
rewritten. -/
def Config.save (c : Config) (entry confirm : String) (salt nonce : List Nat)
    (disk : Option Json) : SaveOutcome :=
  match c.master_password with
  | none =>
      if entry = confirm then
        ⟨.ok (), ⟨c.servers, some entry⟩,
          some (encryptFile c.servers entry salt nonce)⟩
      else
        ⟨.error .passphraseMismatch, c, disk⟩
  | some p => ⟨.ok (), c, some (encryptFile c.servers p salt nonce)⟩

/-- Embeds `Config::add_server` (src/config.rs lines 170-172). -/
def Config.add_server (c : Config) (server : Server) : Config :=
  ⟨c.servers ++ [server], c.master_password⟩

/-- Embeds `Config::remove_server` (src/config.rs lines 174-178): bounds-checked,
out-of-range indices are ignored. -/
def Config.remove_server (c : Config) (index : Nat) : Config :=
  if index < c.servers.length then
    ⟨c.servers.eraseIdx index, c.master_password⟩
  else c

/-! ## SessionRelay: run_shell (src/main.rs lines 178-223)

The relay is embedded as a step function over an abstract remote channel
(spec §6: the remote session capability with read/write/EOF primitives).  The
background stdin-reader thread and the mpsc channel are represented by a
schedule: the list of bytes the `rx.try_recv()` drain yields at each loop
iteration (spec §5: a single-producer/single-consumer FIFO, polled
non-blockingly by the pump).  Local stdout write/flush success is a per-tick
flag.  The loop is given fuel, one unit per iteration; raw-mode state is
tracked explicitly: `enable_raw_mode` sets it on entry, `disable_raw_mode`
clears it on the source's one normal exit path. -/

/-- Result of one `channel.read(&mut buf)` call: data (possibly empty —
`Ok(0)`), `WouldBlock`, or a fatal I/O error. -/
inductive ReadRes where
  | bytes (data : List Nat)
  | wouldBlock
  | fatal
  deriving DecidableEq

/-- The remote channel capability: byte write, buffered read, EOF flag. -/
structure ChannelOps (σ : Type) where
  write : σ → Nat → σ
  read : σ → ReadRes × σ
  eofFlag : σ → Bool

/-- Environment of one pump iteration: the bytes drained from the stdin
hand-off channel, and whether the stdout write/flush of this iteration
succeeds. -/
structure TickEnv where
  localBytes : List Nat
  stdoutOk : Bool
  deriving DecidableEq

/-- State threaded through the relay: remote channel state, whether the
local terminal is in raw mode, and everything written to local stdout. -/
structure ShellState (σ : Type) where
  chan : σ
  rawMode : Bool
  stdoutData : List Nat

/-- How `run_shell` returned: `Ok(())`, an early `Err` return, or fuel
exhaustion of the model. -/
inductive ShellOutcome where
  | ok
  | ioError
  | fuelOut
  deriving DecidableEq

/-- The loop exit path of `run_shell`: `channel.close()`, `wait_close()`,
then `disable_raw_mode()` — the only place raw mode is reverted. -/
def shellFinish {σ : Type} (s : ShellState σ) : ShellOutcome × ShellState σ :=
  (.ok, ⟨s.chan, false, s.stdoutData⟩)

/-- The pump loop of `run_shell` (src/main.rs lines 203-217).  Each iteration
drains the hand-off channel into the remote channel, makes one non-blocking
read, forwards data to stdout, and exits on remote EOF; a fatal read error or
a stdout failure returns early, without touching raw mode. -/
def runShellLoop {σ : Type} (io : ChannelOps σ) :
    Nat → List TickEnv → ShellState σ → ShellOutcome × ShellState σ
  | 0, _, s => (.fuelOut, s)
  | fuel + 1, sched, s =>
      let env := sched.headD ⟨[], true⟩
      let c1 := env.localBytes.foldl io.write s.chan
      match io.read c1 with
      | (.fatal, c2) => (.ioError, ⟨c2, s.rawMode, s.stdoutData⟩)
      | (.wouldBlock, c2) =>
          if io.eofFlag c2 then shellFinish ⟨c2, s.rawMode, s.stdoutData⟩
          else runShellLoop io fuel sched.tail ⟨c2, s.rawMode, s.stdoutData⟩
      | (.bytes data, c2) =>
          if data.isEmpty then
            if io.eofFlag c2 then shellFinish ⟨c2, s.rawMode, s.stdoutData⟩
            else runShellLoop io fuel sched.tail ⟨c2, s.rawMode, s.stdoutData⟩
          else
            if env.stdoutOk then
              if io.eofFlag c2 then
                shellFinish ⟨c2, s.rawMode, s.stdoutData ++ data⟩
              else
                runShellLoop io fuel sched.tail ⟨c2, s.rawMode, s.stdoutData ++ data⟩
            else (.ioError, ⟨c2, s.rawMode, s.stdoutData⟩)

/-- Embeds `run_shell` (src/main.rs lines 178-223): `enable_raw_mode()` on entry
(raw mode true in the initial state), then the pump loop. -/
def run_shell {σ : Type} (io : ChannelOps σ) (c0 : σ) (fuel : Nat)
    (sched : List TickEnv) : ShellOutcome × ShellState σ :=
  runShellLoop io fuel sched ⟨c0, true, []⟩

/-- A remote channel whose read always fails fatally: drives `run_shell`
into its early `return Err(e.into())` path (src/main.rs line 212). -/
def fatalChannel : ChannelOps Unit :=
  ⟨fun _ _ => (), fun _ => (.fatal, ()), fun _ => false⟩

/-- An echoing remote peer: every byte written is queued and handed back to
reads (2048 bytes at a time, the relay's buffer size); once it has received
`remaining` more bytes and its queue is drained it signals EOF. -/
structure EchoChan where
  queue : List Nat
  remaining : Nat
  deriving DecidableEq

def echoOps : ChannelOps EchoChan where
  write := fun c b => ⟨c.queue ++ [b], c.remaining - 1⟩
  read := fun c =>
    if c.queue.isEmpty then
      if c.remaining = 0 then (.bytes [], c) else (.wouldBlock, c)
    else (.bytes (c.queue.take 2048), ⟨c.queue.drop 2048, c.remaining⟩)
  eofFlag := fun c => c.remaining = 0 && c.queue.isEmpty

theorem echo_write_foldl (l : List Nat) : ∀ q r,
    l.foldl echoOps.write ⟨q, r⟩ = ⟨q ++ l, r - l.length⟩ := by
  induction l with
  | nil => intro q r; simp
  | cons x xs ih =>
      intro q r
      show xs.foldl echoOps.write ⟨q ++ [x], r - 1⟩ = _
      rw [ih]
      simp only [List.append_assoc, List.singleton_append, List.length_cons]
      congr 1
      omega

theorem runShellLoop_echo (fuel : Nat) :
    ∀ (chunks : List (List Nat)) (q acc : List Nat),
    chunks.length + q.length + (chunks.map List.length).sum + 1 ≤ fuel →
    runShellLoop echoOps fuel (chunks.map (fun c => ⟨c, true⟩))
      ⟨⟨q, (chunks.map List.length).sum⟩, true, acc⟩
      = (.ok, ⟨⟨[], 0⟩, false, acc ++ q ++ chunks.flatten⟩) := by
  induction fuel with
  | zero => intro chunks q acc h; omega
  | succ f ih =>
      intro chunks q acc h
      cases chunks with
      | nil =>
          simp only [List.map_nil, List.flatten_nil, List.sum_nil, List.length_nil]
          rw [runShellLoop]
          simp only [List.headD_nil, List.foldl_nil, List.tail_nil]
          by_cases hq : q = []
          · subst hq
            have hread : echoOps.read ⟨[], 0⟩ = (.bytes [], ⟨[], 0⟩) := by
              simp [echoOps]
            rw [hread]
            have heof : echoOps.eofFlag ⟨[], 0⟩ = true := by simp [echoOps]
            simp [heof, shellFinish]
          · have hread : echoOps.read ⟨q, 0⟩ =
                (.bytes (q.take 2048), ⟨q.drop 2048, 0⟩) := by
              simp [echoOps, List.isEmpty_iff, hq]
            rw [hread]
            have htne : q.take 2048 ≠ [] := by
              intro hx
              rcases List.take_eq_nil_iff.mp hx with hz | hz
              · omega
              · exact absurd hz hq
            have hne : ((q.take 2048).isEmpty) = false := by
              simpa [List.isEmpty_iff] using htne
            by_cases hlen : q.length ≤ 2048
            · have hdrop : q.drop 2048 = [] := List.drop_eq_nil_of_le hlen
              have htake : q.take 2048 = q := List.take_of_length_le hlen
              have heof : echoOps.eofFlag ⟨[], 0⟩ = true := by
                simp [echoOps]
              simp [hne, heof, shellFinish, hdrop, htake, hq]
            · have heof : echoOps.eofFlag ⟨q.drop 2048, 0⟩ = false := by
                simp [echoOps, List.isEmpty_iff, List.drop_eq_nil_iff]
                omega
              have hih := ih [] (q.drop 2048) (acc ++ q.take 2048)
                (by simp [List.length_drop]; omega)
              simp only [List.map_nil, List.flatten_nil, List.sum_nil,
                List.length_nil] at hih
              simp only [hne, heof, Bool.false_eq_true, if_false, if_true]
              rw [hih]
              simp [List.append_assoc, List.take_append_drop]
      | cons c rest =>
          simp only [List.map_cons, List.flatten_cons, List.sum_cons, List.length_cons]
          rw [runShellLoop]
          simp only [List.headD_cons, List.tail_cons]
          have hfold : List.foldl echoOps.write
              (⟨q, c.length + (rest.map List.length).sum⟩ : EchoChan) c =
              ⟨q ++ c, (rest.map List.length).sum⟩ := by
            rw [echo_write_foldl]
            congr 1
            omega
          rw [hfold]
          by_cases hqc : q ++ c = []
          · have hq : q = [] := (List.append_eq_nil.mp hqc).1
            have hc : c = [] := (List.append_eq_nil.mp hqc).2
            rw [hqc]
            by_cases hr : (rest.map List.length).sum = 0
            · have hrf : rest.flatten = [] := by
                have : rest.flatten.length = 0 := by
                  rw [List.length_flatten]
                  exact hr
                exact List.length_eq_zero.mp this
              rw [hr]
              have hread : echoOps.read ⟨[], 0⟩ = (.bytes [], ⟨[], 0⟩) := by
                simp [echoOps]
              rw [hread]
              have heof : echoOps.eofFlag ⟨[], 0⟩ = true := by simp [echoOps]
              simp [heof, shellFinish, hq, hc, hrf]
            · have hread : echoOps.read ⟨[], (rest.map List.length).sum⟩ =
                  (.wouldBlock, ⟨[], (rest.map List.length).sum⟩) := by
                simp [echoOps, hr]
              rw [hread]
              have heof : echoOps.eofFlag ⟨[], (rest.map List.length).sum⟩ = false := by
                simp [echoOps, hr]
              simp only [heof, Bool.false_eq_true, if_false]
              have hih := ih rest [] acc (by
                simp only [List.length_cons, List.map_cons, List.sum_cons,
                  List.length_nil] at h ⊢
                omega)
              rw [hih]
              simp [hq, hc]
          · have hread : echoOps.read ⟨q ++ c, (rest.map List.length).sum⟩ =
                (.bytes ((q ++ c).take 2048),
                  ⟨(q ++ c).drop 2048, (rest.map List.length).sum⟩) := by
              simp [echoOps, List.isEmpty_iff, hqc]
            rw [hread]
            have htne : (q ++ c).take 2048 ≠ [] := by
              intro hx
              rcases List.take_eq_nil_iff.mp hx with hz | hz
              · omega
              · exact absurd hz hqc
            have hne : (((q ++ c).take 2048).isEmpty) = false := by
              simpa [List.isEmpty_iff] using htne
            have hsplit : ¬(q = [] ∧ c = []) := by
              intro hx
              exact hqc (by simp [hx.1, hx.2])
            by_cases heofc : (rest.map List.length).sum = 0 ∧ (q ++ c).length ≤ 2048
            · obtain ⟨hr, hlen⟩ := heofc
              have hrf : rest.flatten = [] := by
                have : rest.flatten.length = 0 := by
                  rw [List.length_flatten]
                  exact hr
                exact List.length_eq_zero.mp this
              have hdrop : (q ++ c).drop 2048 = [] := List.drop_eq_nil_of_le hlen
              have htake : (q ++ c).take 2048 = q ++ c := List.take_of_length_le hlen
              have heof : echoOps.eofFlag ⟨([] : List Nat), 0⟩ = true := by
                simp [echoOps]
              simp [hne, heof, shellFinish, hdrop, htake, hrf, hsplit, hr,
                List.append_assoc]
            · have heof : echoOps.eofFlag
                  ⟨(q ++ c).drop 2048, (rest.map List.length).sum⟩ = false := by
                by_cases hs : (rest.map List.length).sum = 0
                · have hlen2 : ¬(q ++ c).length ≤ 2048 := fun hx => heofc ⟨hs, hx⟩
                  have hde : ((q ++ c).drop 2048).isEmpty = false := by
                    simp only [List.length_append] at hlen2
                    simp [List.isEmpty_iff, List.drop_eq_nil_iff]
                    omega
                  simp [echoOps, hde]
                · simp [echoOps, hs]
              have hlb : 1 ≤ (q ++ c).length := List.length_pos.mpr hqc
              have hih := ih rest ((q ++ c).drop 2048) (acc ++ (q ++ c).take 2048) (by
                simp only [List.length_drop, List.length_append, List.length_cons,
                  List.map_cons, List.sum_cons] at h hlb ⊢
                omega)
              simp only [hne, heof, Bool.false_eq_true, if_false, if_true]
              rw [hih]
              have hout : acc ++ (q ++ c).take 2048 ++ ((q ++ c).drop 2048) ++ rest.flatten
                  = acc ++ q ++ (c ++ rest.flatten) := by
                rw [List.append_assoc acc, List.take_append_drop]
                simp [List.append_assoc]
              rw [hout]

/-! ## TransferPump: run_sftp (src/main.rs lines 225-286)

Upload and download share the same strictly sequential loop: read up to
8192 bytes from the source, write them to the destination, bump the progress
bar by the chunk size, until a zero-length read.  The source data is a byte
list; the loop is given structural fuel (one unit per iteration, the source
length always suffices since every iteration consumes at least one byte).
The progress sink records the cumulative byte count after every chunk. -/

/-- The copy loop shared by the upload and download arms of `run_sftp`:
returns the bytes written to the destination and the cumulative progress
reports (`pb.inc(n)` after each chunk, starting from `pos`). -/
def sftpLoop : Nat → List Nat → Nat → List Nat × List Nat
  | 0, _, _ => ([], [])
  | fuel + 1, src, pos =>
      if src.isEmpty then ([], [])
      else
        let chunk := src.take 8192
        let rest := sftpLoop fuel (src.drop 8192) (pos + chunk.length)
        (chunk ++ rest.1, (pos + chunk.length) :: rest.2)

/-- A progress-sink event: a cumulative byte count, or the terminal
`finish_with_message` signal. -/
inductive ProgEvent where
  | report (cumulative : Nat)
  | complete
  deriving DecidableEq

/-- Observable outcome of one transfer: destination content, the progress
events in order, and the total the progress bar was created with. -/
structure TransferOut where
  destData : List Nat
  events : List ProgEvent
  totalExpected : Nat
  deriving DecidableEq

/-- The upload arm of `run_sftp` (src/main.rs lines 234-257): the progress
bar total is the local file size. -/
def run_sftp_upload (localFile : List Nat) : TransferOut :=
  let r := sftpLoop (localFile.length + 1) localFile 0
  ⟨r.1, r.2.map .report ++ [.complete], localFile.length⟩

/-- The download arm of `run_sftp` (src/main.rs lines 258-282): the progress
bar total is the remote stat size, defaulting to 0 when unavailable
(`file_stat.size.unwrap_or(0)`). -/
def run_sftp_download (remoteFile : List Nat) (statSize : Option Nat) : TransferOut :=
  let r := sftpLoop (remoteFile.length + 1) remoteFile 0
  ⟨r.1, r.2.map .report ++ [.complete], statSize.getD 0⟩

/-- Number of chunks a transfer of `n` bytes makes at 8 KiB per chunk. -/
def numChunks (n : Nat) : Nat := (n + 8191) / 8192

theorem sftpLoop_spec (fuel : Nat) : ∀ (src : List Nat) (pos : Nat),
    src.length < fuel →
    sftpLoop fuel src pos =
      (src, (List.range (numChunks src.length)).map
        (fun k => pos + min ((k + 1) * 8192) src.length)) := by
  induction fuel with
  | zero => intro src pos h; omega
  | succ f ih =>
      intro src pos h
      rw [sftpLoop]
      by_cases hs : src.isEmpty
      · have hs2 : src = [] := List.isEmpty_iff.mp hs
        subst hs2
        simp [numChunks]
      · have hs2 : src ≠ [] := fun hx => hs (by simp [hx])
        have hpos : 0 < src.length := List.length_pos.mpr hs2
        rw [if_neg (by simp [hs])]
        dsimp only
        have hih := ih (src.drop 8192) (pos + (src.take 8192).length) (by
          simp only [List.length_drop]
          omega)
        rw [hih]
        have hchunks : numChunks src.length = numChunks (src.length - 8192) + 1 := by
          unfold numChunks
          omega
        rw [hchunks, List.range_succ_eq_map]
        rw [List.map_cons, List.map_map, Prod.mk.injEq]
        refine ⟨?_, ?_⟩
        · rw [List.take_append_drop]
        · rw [List.cons.injEq]
          refine ⟨?_, ?_⟩
          · rw [List.length_take]
          · rw [List.length_drop, List.length_take]
            apply List.map_congr_left
            intro k hk
            simp only [Function.comp_apply]
            omega

theorem length_sftpLoop_reports (src : List Nat) :
    (sftpLoop (src.length + 1) src 0).2.length = numChunks src.length := by
  rw [sftpLoop_spec (src.length + 1) src 0 (by omega)]
  simp

/-! ## The add-server form (src/app.rs lines 150-171) -/

/-- The textual content of the add-server popup form: first line of each
text area, plus the selected auth-type index. -/
structure AppForm where
  group_input : String
  name_input : String
  user_input : String
  host_input : String
  port_input : String
  auth_type_idx : Nat
  deriving DecidableEq

/-- Rust's `str::parse::<u16>()`: optional leading plus sign, at least one
digit, all digits, value within the `u16` range; anything else is `Err`. -/
def parseU16 (s : String) : Option Nat :=
  let cs := match s.data with
    | '+' :: rest => rest
    | l => l
  if cs.isEmpty then none
  else if cs.all Char.isDigit then
    let n := cs.foldl (fun a c => a * 10 + (c.toNat - 48)) 0
    if n < 65536 then some n else none
  else none

/-- The auth variant `App::save_server` builds from the selector index and
the password/key text (src/app.rs lines 154-158). -/
def formAuth (idx : Nat) (secret : String) : AuthType :=
  match idx with
  | 0 => .Password secret
  | 1 => .Key secret
  | _ => .Agent

/-- Embeds `App::save_server` (src/app.rs lines 150-171): parses the port field
with `parse().unwrap_or(22)` and appends the new profile to the in-memory
list. -/
def App.save_server (servers : List Server) (f : AppForm) (secret : String) :
    List Server :=
  let port := (parseU16 f.port_input).getD 22
  servers ++ [⟨f.name_input, f.user_input, f.host_input, port,
    formAuth f.auth_type_idx secret, f.group_input⟩]

/-! ## Bridge lemmas: parsers against the writers -/

theorem parseEncrypted_encryptedToJson (e : EncryptedConfig) :
    parseEncrypted (encryptedToJson e) = some ⟨e.salt, e.nonce, e.ciphertext⟩ := by
  show some (⟨strToBytes (bytesToStr e.salt), strToBytes (bytesToStr e.nonce),
      strToBytes (bytesToStr e.ciphertext)⟩ : EncryptedConfig) = _
  rw [strToBytes_bytesToStr, strToBytes_bytesToStr, strToBytes_bytesToStr]

theorem parseCurrentList_encryptedToJson (e : EncryptedConfig) :
    parseCurrentList (encryptedToJson e) = none := rfl

theorem parseLegacyList_encryptedToJson (e : EncryptedConfig) :
    parseLegacyList (encryptedToJson e) = none := rfl

theorem load_encryptedToJson (e : EncryptedConfig) (pw : String) :
    Config.load (some (encryptedToJson e)) pw =
      match aeadDecrypt (derive_key pw e.salt) e.nonce e.ciphertext with
      | none => .error .authError
      | some plaintext =>
          match bytesToServers plaintext with
          | none => .error .parseError
          | some servers => .ok ⟨servers, some pw⟩ := by
  simp only [Config.load, parseCurrentList_encryptedToJson,
    parseLegacyList_encryptedToJson, parseEncrypted_encryptedToJson]

theorem aeadDecrypt_of_mismatch {k k' : DerivedKey} {n n' p : List Nat}
    (h : ¬(k = k' ∧ n = n')) : aeadDecrypt k' n' (aeadEncrypt k n p) = none := by
  by_contra hx
  obtain ⟨q, hq⟩ := Option.ne_none_iff_exists'.mp hx
  rw [aeadDecrypt_eq_some] at hq
  obtain ⟨hk, hn, _⟩ := aeadEncrypt_inj hq
  exact h ⟨hk, hn⟩

theorem set_ne_of_elem_ne {l : List Nat} {i b : Nat} (hi : i < l.length)
    (hb : b ≠ l.get ⟨i, hi⟩) : l.set i b ≠ l := by
  intro hx
  apply hb
  rw [List.get_eq_getElem]
  exact set_elem_of_set_eq hi hx

/-- The JSON shape of one record in a Legacy-format file: exactly the four
fields `name`, `user`, `host`, `port`. -/
def legacyToJson (l : LegacyServer) : Json :=
  .obj [("name", .str l.name), ("user", .str l.user), ("host", .str l.host),
        ("port", .num (l.port : Int))]

theorem lookupLegacy_name (l : LegacyServer) :
    (([("name", Json.str l.name), ("user", Json.str l.user),
      ("host", Json.str l.host), ("port", Json.num (l.port : Int))] :
        List (String × Json)).lookup "name") = some (.str l.name) := rfl

theorem lookupLegacy_user (l : LegacyServer) :
    (([("name", Json.str l.name), ("user", Json.str l.user),
      ("host", Json.str l.host), ("port", Json.num (l.port : Int))] :
        List (String × Json)).lookup "user") = some (.str l.user) := rfl

theorem lookupLegacy_host (l : LegacyServer) :
    (([("name", Json.str l.name), ("user", Json.str l.user),
      ("host", Json.str l.host), ("port", Json.num (l.port : Int))] :
        List (String × Json)).lookup "host") = some (.str l.host) := rfl

theorem lookupLegacy_port (l : LegacyServer) :
    (([("name", Json.str l.name), ("user", Json.str l.user),
      ("host", Json.str l.host), ("port", Json.num (l.port : Int))] :
        List (String × Json)).lookup "port") = some (.num (l.port : Int)) := rfl

theorem lookupLegacy_auth (l : LegacyServer) :
    (([("name", Json.str l.name), ("user", Json.str l.user),
      ("host", Json.str l.host), ("port", Json.num (l.port : Int))] :
        List (String × Json)).lookup "auth_type") = none := rfl

theorem lookupLegacy_group (l : LegacyServer) :
    (([("name", Json.str l.name), ("user", Json.str l.user),
      ("host", Json.str l.host), ("port", Json.num (l.port : Int))] :
        List (String × Json)).lookup "group") = none := rfl

theorem parseServer_legacyToJson (l : LegacyServer) :
    parseServer (legacyToJson l) = none := by
  rw [legacyToJson, parseServer]
  rw [lookupLegacy_auth l, Option.none_bind]
  rcases h4 : (([("name", Json.str l.name), ("user", Json.str l.user),
      ("host", Json.str l.host), ("port", Json.num (l.port : Int))] :
        List (String × Json)).lookup "port").bind getU16 with _ | v
  · rfl
  · rfl

theorem getU16_ofNat (p : Nat) (hp : p < 65536) :
    getU16 (.num (p : Int)) = some p := by
  show (if 0 ≤ (p : Int) ∧ (p : Int) < 65536 then some (p : Int).toNat else none) = some p
  rw [if_pos ⟨Int.ofNat_nonneg p, by exact_mod_cast hp⟩]
  simp

theorem parseLegacyServer_legacyToJson (l : LegacyServer) (hp : l.port < 65536) :
    parseLegacyServer (legacyToJson l) = some l := by
  rw [legacyToJson, parseLegacyServer]
  rw [lookupLegacy_port l, Option.some_bind, getU16_ofNat l.port hp]
  rfl

theorem mapM_map_eq_some {α β γ : Type} (h : α → β) (f : β → Option γ) (g : α → γ) :
    ∀ (l : List α), (∀ x ∈ l, f (h x) = some (g x)) →
    (l.map h).mapM f = some (l.map g) := by
  intro l
  induction l with
  | nil => intro _; rfl
  | cons x xs ih =>
      intro hall
      rw [List.map_cons, List.mapM_cons, hall x (by simp),
        ih (fun y hy => hall y (by simp [hy]))]
      rfl

theorem parseLegacyList_legacyFile (ls : List LegacyServer)
    (hp : ∀ l ∈ ls, l.port < 65536) :
    parseLegacyList (.arr (ls.map legacyToJson)) = some ls := by
  show (ls.map legacyToJson).mapM parseLegacyServer = some ls
  have := mapM_map_eq_some legacyToJson parseLegacyServer id ls
    (fun x hx => by rw [parseLegacyServer_legacyToJson x (hp x hx)]; rfl)
  simpa using this

theorem parseCurrentList_legacyFile (l : LegacyServer) (rest : List LegacyServer) :
    parseCurrentList (.arr ((l :: rest).map legacyToJson)) = none := by
  show ((l :: rest).map legacyToJson).mapM parseServer = none
  rw [List.map_cons, List.mapM_cons, parseServer_legacyToJson]
  rfl

theorem loadEq (content : Json) (pw : String) :
    Config.load (some content) pw =
      match parseCurrentList content with
      | some servers => .ok ⟨servers, none⟩
      | none =>
          match parseLegacyList content with
          | some legacy => .ok ⟨legacy.map migrateLegacy, none⟩
          | none =>
              match parseEncrypted content with
              | none => .error .formatError
              | some enc =>
                  match aeadDecrypt (derive_key pw enc.salt) enc.nonce enc.ciphertext with
                  | none => .error .authError
                  | some plaintext =>
                      match bytesToServers plaintext with
                      | none => .error .parseError
                      | some servers => .ok ⟨servers, some pw⟩ := rfl

theorem load_encrypted_authError (e : EncryptedConfig) (pw : String)
    (hdec : aeadDecrypt (derive_key pw e.salt) e.nonce e.ciphertext = none) :
    Config.load (some (encryptedToJson e)) pw = .error .authError := by
  rw [load_encryptedToJson, hdec]

theorem load_encryptFile (P : List Server) (S : String) (salt nonce : List Nat)
    (wf : ∀ s ∈ P, s.port < 65536) :
    Config.load (some (encryptFile P S salt nonce)) S = .ok ⟨P, some S⟩ := by
  rw [show encryptFile P S salt nonce = encryptedToJson
    ⟨salt, nonce, aeadEncrypt (derive_key S salt) nonce (serversToBytes P)⟩ from rfl]
  rw [load_encryptedToJson]
  rw [show aeadDecrypt (derive_key S salt) nonce
      (aeadEncrypt (derive_key S salt) nonce (serversToBytes P))
      = some (serversToBytes P) from aeadDecrypt_eq_some.mpr rfl]
  simp only [bytesToServers_serversToBytes P wf]

/-- C1: saving a ProfileSet `P` under passphrase `S` (with `S` the held
master passphrase; the fresh salt and nonce drawn for the save are
arbitrary) writes exactly the encrypted file of `P`, and loading that file
back with the same passphrase `S` succeeds and returns a config whose server
list is `P` field-for-field in the same order, holding passphrase `S`. -/
theorem save_load_roundtrip (P : List Server) (S : String)
    (entry confirm : String) (salt nonce : List Nat) (disk : Option Json)
    (wf : ∀ s ∈ P, s.port < 65536) :
    (Config.save ⟨P, some S⟩ entry confirm salt nonce disk).disk
        = some (encryptFile P S salt nonce) ∧
    (Config.save ⟨P, some S⟩ entry confirm salt nonce disk).result = .ok () ∧
    Config.load (some (encryptFile P S salt nonce)) S = .ok ⟨P, some S⟩ := by
  refine ⟨rfl, rfl, ?_⟩
  exact load_encryptFile P S salt nonce wf

/-- Witness for C1 on the spec's example scenario: the single profile
`db1` saved under `"correct-horse"` loads back identically. -/
theorem save_load_roundtrip_witness :
    (∀ s ∈ [(⟨"db1", "root", "10.0.0.5", 5432, .Agent, "General"⟩ : Server)],
      s.port < 65536) ∧
    Config.load (some (encryptFile
        [⟨"db1", "root", "10.0.0.5", 5432, .Agent, "General"⟩]
        "correct-horse" [7, 7] [9])) "correct-horse"
      = .ok ⟨[⟨"db1", "root", "10.0.0.5", 5432, .Agent, "General"⟩],
          some "correct-horse"⟩ :=
  ⟨by decide,
    (save_load_roundtrip [⟨"db1", "root", "10.0.0.5", 5432, .Agent, "General"⟩]
      "correct-horse" "x" "y" [7, 7] [9] none (by decide)).2.2⟩

/-- C2: for a file saved as `encryptFile P S salt nonce` (whose ciphertext
field is `aeadEncrypt (derive_key S salt) nonce (serversToBytes P)`):
loading with any passphrase other than `S` fails with AuthError and never
returns data, and flipping any single byte of the stored ciphertext, nonce
or salt field makes loading with the correct passphrase `S` fail with
AuthError as well — never a garbled but successful parse. -/
theorem wrong_pass_and_tamper_authError (P : List Server) (S : String)
    (salt nonce : List Nat) :
    (∀ T, T ≠ S →
      Config.load (some (encryptFile P S salt nonce)) T = .error .authError) ∧
    (∀ i b (hi : i < (aeadEncrypt (derive_key S salt) nonce
        (serversToBytes P)).length),
      b ≠ (aeadEncrypt (derive_key S salt) nonce (serversToBytes P)).get ⟨i, hi⟩ →
      Config.load (some (encryptedToJson ⟨salt, nonce,
        (aeadEncrypt (derive_key S salt) nonce (serversToBytes P)).set i b⟩)) S
        = .error .authError) ∧
    (∀ i b (hi : i < nonce.length), b ≠ nonce.get ⟨i, hi⟩ →
      Config.load (some (encryptedToJson ⟨salt, nonce.set i b,
        aeadEncrypt (derive_key S salt) nonce (serversToBytes P)⟩)) S
        = .error .authError) ∧
    (∀ i b (hi : i < salt.length), b ≠ salt.get ⟨i, hi⟩ →
      Config.load (some (encryptedToJson ⟨salt.set i b, nonce,
        aeadEncrypt (derive_key S salt) nonce (serversToBytes P)⟩)) S
        = .error .authError) := by
  refine ⟨?_, ?_, ?_, ?_⟩
  · intro T hT
    apply load_encrypted_authError
    apply aeadDecrypt_of_mismatch
    intro hx
    apply hT
    have := congrArg DerivedKey.password hx.1
    simpa [derive_key] using this.symm
  · intro i b hi hb
    apply load_encrypted_authError
    exact aeadDecrypt_set_eq_none (derive_key S salt) nonce (serversToBytes P) i b hi hb
  · intro i b hi hb
    apply load_encrypted_authError
    apply aeadDecrypt_of_mismatch
    intro hx
    exact set_ne_of_elem_ne hi hb hx.2.symm
  · intro i b hi hb
    apply load_encrypted_authError
    apply aeadDecrypt_of_mismatch
    intro hx
    have := congrArg DerivedKey.salt hx.1
    exact set_ne_of_elem_ne hi hb (by simpa [derive_key] using this.symm)

/-- Witness for C2: loading the example save with the wrong passphrase, and
loading it after flipping one byte of each stored field, all yield AuthError. -/
theorem wrong_pass_and_tamper_authError_witness :
    (("wrong" : String) ≠ "correct-horse" ∧
      Config.load (some (encryptFile
        [⟨"db1", "root", "10.0.0.5", 5432, .Agent, "General"⟩]
        "correct-horse" [7, 7] [9])) "wrong" = .error .authError) ∧
    ((0 : Nat) ≠ ([7, 7] : List Nat).get ⟨0, by decide⟩ ∧
      Config.load (some (encryptedToJson ⟨([7, 7] : List Nat).set 0 0, [9],
        aeadEncrypt (derive_key "correct-horse" [7, 7]) [9] (serversToBytes
          [⟨"db1", "root", "10.0.0.5", 5432, .Agent, "General"⟩])⟩))
        "correct-horse" = .error .authError) :=
  ⟨⟨by decide,
    (wrong_pass_and_tamper_authError
      [⟨"db1", "root", "10.0.0.5", 5432, .Agent, "General"⟩]
      "correct-horse" [7, 7] [9]).1 "wrong" (by decide)⟩,
   ⟨by decide,
    (wrong_pass_and_tamper_authError
      [⟨"db1", "root", "10.0.0.5", 5432, .Agent, "General"⟩]
      "correct-horse" [7, 7] [9]).2.2.2 0 0 (by decide) (by decide)⟩⟩

/-- C3: evaluating the relay at a remote channel whose very first read
fails fatally.  `run_shell` takes the early `return Err(e.into())` exit
(src/main.rs line 212) — and the state it returns still has raw mode
enabled: the claimed revert-on-every-exit-path does not happen on this
path, because `disable_raw_mode()` is only called after the loop
(src/main.rs line 221) and the early error returns skip it. -/
theorem run_shell_error_keeps_raw_mode :
    (run_shell fatalChannel () 5 [⟨[], true⟩]).1 = .ioError ∧
    (run_shell fatalChannel () 5 [⟨[], true⟩]).2.rawMode = true := ⟨rfl, rfl⟩

/-- C4: the load cascade attempts Current, then Legacy, then Encrypted, and
the first successful parse wins: whenever the Current shape parses (in
particular when the file parses as both Current and Legacy), the result is
the Current parse; Legacy is used only when Current fails; if all three
shapes fail the load fails with the format error. -/
theorem load_shape_priority (f : Json) (pw : String) :
    (∀ cs, parseCurrentList f = some cs →
      Config.load (some f) pw = .ok ⟨cs, none⟩) ∧
    (∀ ls, parseCurrentList f = none → parseLegacyList f = some ls →
      Config.load (some f) pw = .ok ⟨ls.map migrateLegacy, none⟩) ∧
    (parseCurrentList f = none → parseLegacyList f = none →
      parseEncrypted f = none →
      Config.load (some f) pw = .error .formatError) := by
  refine ⟨?_, ?_, ?_⟩
  · intro cs h
    simp only [Config.load, h]
  · intro ls h1 h2
    simp only [Config.load, h1, h2]
  · intro h1 h2 h3
    simp only [Config.load, h1, h2, h3]

/-- Witness for C4: a Current-shape record with `auth_type` and `group`
parses under both the Current and the Legacy shape (the legacy parse
tolerates the extra fields), and load resolves it as Current. -/
theorem load_shape_priority_witness :
    parseCurrentList (.arr [.obj [("name", .str "a"), ("user", .str "u"),
        ("host", .str "h"), ("port", .num 22), ("auth_type", .str "Agent"),
        ("group", .str "G")]])
      = some [⟨"a", "u", "h", 22, .Agent, "G"⟩] ∧
    parseLegacyList (.arr [.obj [("name", .str "a"), ("user", .str "u"),
        ("host", .str "h"), ("port", .num 22), ("auth_type", .str "Agent"),
        ("group", .str "G")]])
      = some [⟨"a", "u", "h", 22⟩] ∧
    Config.load (some (.arr [.obj [("name", .str "a"), ("user", .str "u"),
        ("host", .str "h"), ("port", .num 22), ("auth_type", .str "Agent"),
        ("group", .str "G")]])) "pw"
      = .ok ⟨[⟨"a", "u", "h", 22, .Agent, "G"⟩], none⟩ :=
  ⟨by decide, by decide,
    (load_shape_priority (.arr [.obj [("name", .str "a"), ("user", .str "u"),
        ("host", .str "h"), ("port", .num 22), ("auth_type", .str "Agent"),
        ("group", .str "G")]]) "pw").1
      [⟨"a", "u", "h", 22, .Agent, "G"⟩] (by decide)⟩

/-- C5: a Legacy-shape file — an array of records with only `name`, `user`,
`host`, `port` — loads into profiles that keep those four fields and get
`auth_type = Agent` and `group = "General"`, with no passphrase held; and
the load leaves the on-disk file exactly as it was (it is rewritten only by
a later explicit save). -/
theorem legacy_migration (ls : List LegacyServer) (pw : String)
    (wf : ∀ l ∈ ls, l.port < 65536) :
    Config.load (some (.arr (ls.map legacyToJson))) pw
      = .ok ⟨ls.map migrateLegacy, none⟩ ∧
    (Config.loadFS (some (.arr (ls.map legacyToJson))) pw).2
      = some (.arr (ls.map legacyToJson)) := by
  refine ⟨?_, rfl⟩
  cases ls with
  | nil => rfl
  | cons l rest =>
      rw [loadEq, parseCurrentList_legacyFile l rest,
        parseLegacyList_legacyFile (l :: rest) wf]

/-- Witness for C5: a two-record legacy file migrates to Agent-auth,
General-group profiles in order. -/
theorem legacy_migration_witness :
    (∀ x ∈ [(⟨"a", "u", "h", 22⟩ : LegacyServer), ⟨"b", "v", "i", 2222⟩],
      x.port < 65536) ∧
    Config.load (some (.arr ([(⟨"a", "u", "h", 22⟩ : LegacyServer),
        ⟨"b", "v", "i", 2222⟩].map legacyToJson))) "pw"
      = .ok ⟨[⟨"a", "u", "h", 22, .Agent, "General"⟩,
              ⟨"b", "v", "i", 2222, .Agent, "General"⟩], none⟩ :=
  ⟨by decide,
    (legacy_migration [⟨"a", "u", "h", 22⟩, ⟨"b", "v", "i", 2222⟩] "pw"
      (by decide)).1⟩

/-- C6: against an echoing remote peer that closes after echoing all input,
feeding the relay N bytes of local input (in arbitrary tick-sized chunks)
makes it write exactly those N bytes to local stdout, in order, and exit
normally on remote EOF (with raw mode reverted on that normal path). -/
theorem relay_echo_byte_exact (chunks : List (List Nat)) (fuel : Nat)
    (hf : chunks.length + (chunks.map List.length).sum + 1 ≤ fuel) :
    run_shell echoOps ⟨[], (chunks.map List.length).sum⟩ fuel
      (chunks.map (fun c => ⟨c, true⟩))
      = (.ok, ⟨⟨[], 0⟩, false, chunks.flatten⟩) := by
  unfold run_shell
  have h := runShellLoop_echo fuel chunks [] [] (by simpa using hf)
  simpa using h

/-- Witness for C6: six bytes fed in three chunks come out as exactly those
six bytes before EOF. -/
theorem relay_echo_byte_exact_witness :
    ([[10, 20], [30], [40, 50, 60]] : List (List Nat)).length +
      (([[10, 20], [30], [40, 50, 60]] : List (List Nat)).map List.length).sum + 1
      ≤ 16 ∧
    run_shell echoOps ⟨[], (([[10, 20], [30], [40, 50, 60]] :
        List (List Nat)).map List.length).sum⟩ 16
      (([[10, 20], [30], [40, 50, 60]] : List (List Nat)).map
        (fun c => ⟨c, true⟩))
      = (.ok, ⟨⟨[], 0⟩, false, [10, 20, 30, 40, 50, 60]⟩) :=
  ⟨by decide,
    by
      have h := relay_echo_byte_exact [[10, 20], [30], [40, 50, 60]] 16 (by decide)
      simpa using h⟩

/-- C7: saving with no passphrase held and mismatching interactive entries
returns the passphrase-mismatch error, keeps the config (no passphrase gets
stored), and leaves the on-disk file exactly as it was — no profile data is
written. -/
theorem save_mismatch_untouched (c : Config) (entry confirm : String)
    (salt nonce : List Nat) (disk : Option Json)
    (hmp : c.master_password = none) (hne : entry ≠ confirm) :
    Config.save c entry confirm salt nonce disk
      = ⟨.error .passphraseMismatch, c, disk⟩ := by
  unfold Config.save
  rw [hmp]
  rw [if_neg hne]

/-- Witness for C7: mismatching entries `"a"`/`"b"` abort the save of a
nonempty store and leave a pre-existing disk file in place. -/
theorem save_mismatch_untouched_witness :
    ((⟨[⟨"db1", "root", "10.0.0.5", 5432, .Agent, "General"⟩], none⟩ :
        Config).master_password = none ∧ ("a" : String) ≠ "b") ∧
    Config.save ⟨[⟨"db1", "root", "10.0.0.5", 5432, .Agent, "General"⟩], none⟩
        "a" "b" [1] [2] (some (.arr []))
      = ⟨.error .passphraseMismatch,
          ⟨[⟨"db1", "root", "10.0.0.5", 5432, .Agent, "General"⟩], none⟩,
          some (.arr [])⟩ :=
  ⟨⟨rfl, by decide⟩,
    save_mismatch_untouched
      ⟨[⟨"db1", "root", "10.0.0.5", 5432, .Agent, "General"⟩], none⟩
      "a" "b" [1] [2] (some (.arr [])) rfl (by decide)⟩

/-- C8: `remove_server` with an index at or past the end of the list is a
silent no-op that leaves the config unchanged and raises no error; with an
in-range index it removes exactly the element at that index (keeping the
prefix before it and the suffix after it) and touches nothing else — in
particular the held passphrase; it never writes to disk (its type has no
disk component). -/
theorem remove_server_spec (c : Config) (i : Nat) :
    (c.servers.length ≤ i → Config.remove_server c i = c) ∧
    (i < c.servers.length →
      (Config.remove_server c i).servers
          = c.servers.take i ++ c.servers.drop (i + 1) ∧
      (Config.remove_server c i).master_password = c.master_password) := by
  constructor
  · intro h
    unfold Config.remove_server
    rw [if_neg (by omega)]
  · intro h
    unfold Config.remove_server
    rw [if_pos h]
    exact ⟨List.eraseIdx_eq_take_drop_succ _ _, rfl⟩

/-- Witness for C8: removing index 5 from a two-element store is a no-op;
removing index 0 drops exactly the first element. -/
theorem remove_server_spec_witness :
    ((⟨[⟨"a", "u", "h", 1, .Agent, "G"⟩, ⟨"b", "v", "i", 2, .Agent, "G"⟩],
        some "mp"⟩ : Config).servers.length ≤ 5 ∧
      Config.remove_server
        ⟨[⟨"a", "u", "h", 1, .Agent, "G"⟩, ⟨"b", "v", "i", 2, .Agent, "G"⟩],
          some "mp"⟩ 5
        = ⟨[⟨"a", "u", "h", 1, .Agent, "G"⟩, ⟨"b", "v", "i", 2, .Agent, "G"⟩],
            some "mp"⟩) ∧
    ((0 : Nat) < (⟨[⟨"a", "u", "h", 1, .Agent, "G"⟩,
        ⟨"b", "v", "i", 2, .Agent, "G"⟩], some "mp"⟩ : Config).servers.length ∧
      (Config.remove_server
        ⟨[⟨"a", "u", "h", 1, .Agent, "G"⟩, ⟨"b", "v", "i", 2, .Agent, "G"⟩],
          some "mp"⟩ 0).servers
        = [⟨"b", "v", "i", 2, .Agent, "G"⟩]) :=
  ⟨⟨by decide,
    (remove_server_spec
      ⟨[⟨"a", "u", "h", 1, .Agent, "G"⟩, ⟨"b", "v", "i", 2, .Agent, "G"⟩],
        some "mp"⟩ 5).1 (by decide)⟩,
   ⟨by decide,
    by
      have h := (remove_server_spec
        ⟨[⟨"a", "u", "h", 1, .Agent, "G"⟩, ⟨"b", "v", "i", 2, .Agent, "G"⟩],
          some "mp"⟩ 0).2 (by decide)
      rw [h.1]
      rfl⟩⟩

/-- C9: upload and download both copy the source to the destination by a
strictly sequential loop of fixed 8 KiB chunks until end-of-data — the
destination receives exactly the source bytes; the progress sink sees the
cumulative byte count after every chunk (8192·(k+1), capped by the total,
for the k-th chunk) followed by the terminal complete signal; the upload
progress total is the local file size and the download progress total is
the remote stat size, defaulting to 0 when the stat size is unavailable. -/
theorem transfer_pump_spec (localFile remoteFile : List Nat)
    (statSize : Option Nat) :
    (run_sftp_upload localFile).destData = localFile ∧
    (run_sftp_upload localFile).events
      = ((List.range (numChunks localFile.length)).map
          (fun k => .report (min ((k + 1) * 8192) localFile.length)))
        ++ [.complete] ∧
    (run_sftp_upload localFile).totalExpected = localFile.length ∧
    (run_sftp_download remoteFile statSize).destData = remoteFile ∧
    (run_sftp_download remoteFile statSize).events
      = ((List.range (numChunks remoteFile.length)).map
          (fun k => .report (min ((k + 1) * 8192) remoteFile.length)))
        ++ [.complete] ∧
    (run_sftp_download remoteFile statSize).totalExpected = statSize.getD 0 := by
  have hu := sftpLoop_spec (localFile.length + 1) localFile 0 (by omega)
  have hd := sftpLoop_spec (remoteFile.length + 1) remoteFile 0 (by omega)
  unfold run_sftp_upload run_sftp_download
  rw [hu, hd]
  dsimp only
  refine ⟨rfl, ?_, rfl, rfl, ?_, rfl⟩
  · rw [List.map_map]
    congr 1
    apply List.map_congr_left
    intro k _
    simp
  · rw [List.map_map]
    congr 1
    apply List.map_congr_left
    intro k _
    simp

/-- C10: when the port field of the add-server form does not parse as a
`u16` (for example when it is empty or non-numeric), `save_server` raises no
error and appends the profile with port 22, all other fields taken from the
form as typed. -/
theorem save_server_port_default (servers : List Server) (f : AppForm)
    (secret : String) (hbad : parseU16 f.port_input = none) :
    App.save_server servers f secret
      = servers ++ [⟨f.name_input, f.user_input, f.host_input, 22,
          formAuth f.auth_type_idx secret, f.group_input⟩] := by
  unfold App.save_server
  rw [hbad]
  rfl

/-- Witness for C10: an empty port field and a non-numeric one both store
port 22. -/
theorem save_server_port_default_witness :
    (parseU16 "" = none ∧
      App.save_server [] ⟨"General", "n", "u", "h", "", 0⟩ "pw"
        = [⟨"n", "u", "h", 22, .Password "pw", "General"⟩]) ∧
    (parseU16 "abc" = none ∧
      App.save_server [] ⟨"General", "n", "u", "h", "abc", 2⟩ ""
        = [⟨"n", "u", "h", 22, .Agent, "General"⟩]) :=
  ⟨⟨by decide,
    save_server_port_default [] ⟨"General", "n", "u", "h", "", 0⟩ "pw"
      (by decide)⟩,
   ⟨by decide,
    save_server_port_default [] ⟨"General", "n", "u", "h", "abc", 2⟩ ""
      (by decide)⟩⟩
